import Mathlib

set_option maxRecDepth 4000

/-!
Verification of the wlr-output-management client
(src/tools/output_management_client/output_management_client.c)
against its natural-language specification.

The C program is shallowly embedded below.  Protocol objects
(`struct zwlr_output_mode_v1 *`, `struct zwlr_output_head_v1 *`) are opaque
identities, modelled as `Nat`.  `wl_list` collections are Lean lists in
*iteration* order; `wl_list_insert(&list, e)` inserts at the front of the
list, so it is modelled as prepending.  C `int32_t` fields are modelled as
`Int` (all arithmetic the program performs on them — the `int64_t` area
product in `select_fullscreen_mode` and the `%d` printf/scanf round trip —
is exact, so no wrap-around modelling is needed).  File I/O is modelled by
passing file contents as strings and an explicit writability flag.
-/

/-- Embeds `struct mode_info`: one display mode owned by a head.
`obj` is the opaque protocol object identity. -/
structure mode_info where
  obj : Nat
  width : Int
  height : Int
  refresh : Int
  preferred : Bool
deriving DecidableEq

/-- Embeds `struct head_info`: one output head.  `current` is the weak
reference to the current mode, kept as the protocol identity of the
matched entry of `modes` (the C code stores a pointer to that entry).
`modes` is in `wl_list` iteration order: most recently inserted first. -/
structure head_info where
  obj : Nat
  name : Option String
  enabled : Bool
  current : Option Nat
  modes : List mode_info
deriving DecidableEq

/-- Embeds `struct restore_entry`: one parsed line of the state file. -/
structure restore_entry where
  name : String
  width : Int
  height : Int
  refresh : Int
deriving DecidableEq

/-- Embeds `struct client_state` (the protocol-relevant fields: the head
registry in iteration order, the configuration serial and the done flag). -/
structure client_state where
  serial : Nat
  done : Bool
  heads : List head_info
deriving DecidableEq

/-- The inbound protocol events dispatched to the listeners of
`output_management_client.c`.  Object references are carried as their
opaque identities. -/
inductive event where
  | head_added (head : Nat)
  | head_name (head : Nat) (name : String)
  | head_enabled (head : Nat) (enabled : Int)
  | head_mode (head : Nat) (mode : Nat)
  | head_current_mode (head : Nat) (mode : Nat)
  | head_finished (head : Nat)
  | mode_size (mode : Nat) (width : Int) (height : Int)
  | mode_refresh (mode : Nat) (refresh : Int)
  | mode_preferred (mode : Nat)
  | mode_finished (mode : Nat)
  | manager_done (serial : Nat)
  | manager_finished
deriving DecidableEq

/-- Embeds `mode_handle_size`. -/
def mode_handle_size (info : mode_info) (width height : Int) : mode_info :=
  { info with width := width, height := height }

/-- Embeds `mode_handle_refresh`. -/
def mode_handle_refresh (info : mode_info) (refresh : Int) : mode_info :=
  { info with refresh := refresh }

/-- Embeds `mode_handle_preferred`. -/
def mode_handle_preferred (info : mode_info) : mode_info :=
  { info with preferred := true }

/-- Embeds `mode_handle_finished` (the C handler body is empty). -/
def mode_handle_finished (info : mode_info) : mode_info :=
  info

/-- Embeds `head_handle_name` (frees the old name, strdups the new one). -/
def head_handle_name (info : head_info) (name : String) : head_info :=
  { info with name := some name }

/-- Embeds `head_handle_enabled` (`enabled != 0`). -/
def head_handle_enabled (info : head_info) (enabled : Int) : head_info :=
  { info with enabled := enabled != 0 }

/-- Embeds `head_handle_mode`: a zero-initialized `mode_info` is inserted at
the front of the head's mode list (`wl_list_insert`). -/
def head_handle_mode (info : head_info) (mode : Nat) : head_info :=
  { info with modes :=
      { obj := mode, width := 0, height := 0, refresh := 0, preferred := false } :: info.modes }

/-- Embeds `head_handle_current_mode`: scan the mode list for the entry whose
protocol object matches; on a match store the reference, otherwise leave
`current` untouched. -/
def head_handle_current_mode (info : head_info) (mode : Nat) : head_info :=
  if info.modes.any (fun e => e.obj == mode) then { info with current := some mode }
  else info

/-- Embeds `head_handle_finished` (the C handler body is empty). -/
def head_handle_finished (info : head_info) : head_info :=
  info

/-- Dispatch a per-head event to the head with the matching object identity
(the C code routes it through the listener's per-object data pointer). -/
def update_head (s : client_state) (head : Nat) (f : head_info → head_info) : client_state :=
  { s with heads := s.heads.map (fun info => if info.obj == head then f info else info) }

/-- Dispatch a per-mode event to the matching `mode_info` entry. -/
def update_mode (s : client_state) (mode : Nat) (f : mode_info → mode_info) : client_state :=
  { s with heads := s.heads.map (fun info =>
      { info with modes := info.modes.map (fun e => if e.obj == mode then f e else e) }) }

/-- Embeds `manager_handle_head`: a fresh zero-initialized head is inserted
at the front of the registry (`wl_list_insert`). -/
def manager_handle_head (s : client_state) (head : Nat) : client_state :=
  { s with heads :=
      { obj := head, name := none, enabled := false, current := none, modes := [] } :: s.heads }

/-- Embeds `manager_handle_done`: record the serial, set the done flag. -/
def manager_handle_done (s : client_state) (serial : Nat) : client_state :=
  { s with serial := serial, done := true }

/-- Embeds `manager_handle_finished`: set the done flag only. -/
def manager_handle_finished (s : client_state) : client_state :=
  { s with done := true }

/-- The protocol event sink: dispatches one event to the listener the C
program registered for it. -/
def process_event (s : client_state) (ev : event) : client_state :=
  match ev with
  | .head_added h => manager_handle_head s h
  | .head_name h n => update_head s h (fun i => head_handle_name i n)
  | .head_enabled h e => update_head s h (fun i => head_handle_enabled i e)
  | .head_mode h m => update_head s h (fun i => head_handle_mode i m)
  | .head_current_mode h m => update_head s h (fun i => head_handle_current_mode i m)
  | .head_finished h => update_head s h head_handle_finished
  | .mode_size m w hgt => update_mode s m (fun i => mode_handle_size i w hgt)
  | .mode_refresh m r => update_mode s m (fun i => mode_handle_refresh i r)
  | .mode_preferred m => update_mode s m mode_handle_preferred
  | .mode_finished m => update_mode s m mode_handle_finished
  | .manager_done serial => manager_handle_done s serial
  | .manager_finished => manager_handle_finished s

/-- The loop state of `select_fullscreen_mode`: the `preferred`, `largest`
and `largest_area` locals. -/
structure sel_acc where
  preferred : Option mode_info
  largest : Option mode_info
  largest_area : Int
deriving DecidableEq

/-- One iteration of the `wl_list_for_each` loop in `select_fullscreen_mode`. -/
def sel_step (acc : sel_acc) (entry : mode_info) : sel_acc :=
  let p := if entry.preferred then some entry else acc.preferred
  let area := entry.width * entry.height
  if acc.largest_area < area then { preferred := p, largest := some entry, largest_area := area }
  else { preferred := p, largest := acc.largest, largest_area := acc.largest_area }

/-- Embeds `select_fullscreen_mode`: one pass over the head's modes tracking
the last preferred entry and the first entry of maximal area (strictly
greater than the running maximum, initialized to -1); the preferred entry
wins over the largest one. -/
def select_fullscreen_mode (head : head_info) : Option mode_info :=
  let acc := head.modes.foldl sel_step { preferred := none, largest := none, largest_area := -1 }
  match acc.preferred with
  | some p => some p
  | none => acc.largest

/-- The whitespace class of C `isspace` (the separators `fscanf` skips). -/
def ws_char (c : Char) : Bool :=
  c == ' ' || c == '\t' || c == '\n' || c == '\x0b' || c == '\x0c' || c == '\r'

/-- The digit class of the C `%d` conversion. -/
def is_digit (c : Char) : Bool :=
  48 ≤ c.toNat && c.toNat ≤ 57

/-- The decimal digit character for `d < 10` (ASCII `'0' + d`). -/
def digit_char (d : Nat) : Char :=
  Char.ofNat (48 + d)

/-- The numeric value of a digit character. -/
def digit_val (c : Char) : Nat :=
  c.toNat - 48

/-- Fuel-driven most-significant-first decimal digits of a natural number;
any fuel above the number itself is enough. -/
def nat_digits_fuel : Nat → Nat → List Char
  | 0, _ => []
  | fuel + 1, n =>
    if n < 10 then [digit_char n]
    else nat_digits_fuel fuel (n / 10) ++ [digit_char (n % 10)]

/-- The decimal digits `printf "%d"` emits for a nonnegative value. -/
def nat_digits (n : Nat) : List Char :=
  nat_digits_fuel (n + 1) n

/-- The characters `printf "%d"` emits for an `int` value (a minus sign
followed by the decimal digits of the magnitude when negative). -/
def int_chars (i : Int) : List Char :=
  if i < 0 then '-' :: nat_digits (-i).toNat else nat_digits i.toNat

/-- One line of the state file, as `save_state` prints it:
`name width height refresh` separated by single spaces, newline-terminated. -/
def render_entry (e : restore_entry) : List Char :=
  e.name.data ++ ' ' :: int_chars e.width ++ ' ' :: int_chars e.height
    ++ ' ' :: int_chars e.refresh ++ ['\n']

/-- Dereference a head's weak current-mode reference against its mode list
(the C code stores the pointer to the matched entry; here the entry is
looked up again by the stored identity). -/
def deref_current (head : head_info) : Option mode_info :=
  match head.current with
  | none => none
  | some c => head.modes.find? (fun e => e.obj == c)

/-- The state-file record `save_state` emits for one head: present exactly
when the head has a name and a resolved current mode (`save_state` skips
heads with `!head->name || !head->current`). -/
def entry_of_head (head : head_info) : Option restore_entry :=
  match head.name, deref_current head with
  | some n, some m => some { name := n, width := m.width, height := m.height, refresh := m.refresh }
  | _, _ => none

/-- Embeds the write loop of `save_state`: one rendered line per head that
has both a name and a current mode, in registry iteration order. -/
def save_state_chars (heads : List head_info) : List Char :=
  ((heads.filterMap entry_of_head).map render_entry).flatten

/-- The full state-file content `save_state` writes. -/
def save_state (heads : List head_info) : String :=
  String.mk (save_state_chars heads)

/-- Consume a maximal run of decimal digits, accumulating their value (the
digit loop inside the `%d` conversion). -/
def read_nat (acc : Nat) : List Char → Nat × List Char
  | [] => (acc, [])
  | c :: cs => if is_digit c then read_nat (acc * 10 + digit_val c) cs else (acc, c :: cs)

/-- Embeds the `%d` conversion of `fscanf`: skip whitespace, then an
optional sign followed by at least one digit; `none` models a matching
failure or end of input. -/
def read_int (cs : List Char) : Option (Int × List Char) :=
  match cs.dropWhile ws_char with
  | [] => none
  | c :: rest =>
    if c == '-' then
      match rest with
      | [] => none
      | d :: _ =>
        if is_digit d then some (-(((read_nat 0 rest).1 : Nat) : Int), (read_nat 0 rest).2)
        else none
    else if c == '+' then
      match rest with
      | [] => none
      | d :: _ =>
        if is_digit d then some ((((read_nat 0 rest).1 : Nat) : Int), (read_nat 0 rest).2)
        else none
    else if is_digit c then
      some ((((read_nat 0 (c :: rest)).1 : Nat) : Int), (read_nat 0 (c :: rest)).2)
    else none

/-- Consume up to `n` leading non-whitespace characters (the bounded token
scan of the `%255s` conversion), returning the token and the rest. -/
def scan_tok : Nat → List Char → List Char × List Char
  | _, [] => ([], [])
  | 0, cs => ([], cs)
  | n + 1, c :: cs =>
    if ws_char c then ([], c :: cs)
    else
      let (t, r) := scan_tok n cs
      (c :: t, r)

/-- Embeds the `%255s` conversion of `fscanf`: skip whitespace, then read up
to 255 non-whitespace characters; `none` models end of input. -/
def read_string255 (cs : List Char) : Option (String × List Char) :=
  match cs.dropWhile ws_char with
  | [] => none
  | c :: rest =>
    some (String.mk (scan_tok 255 (c :: rest)).1, (scan_tok 255 (c :: rest)).2)

/-- One `fscanf(fp, "%255s %d %d %d", ...)` call of the `load_state` loop:
all four conversions must succeed for the record to be produced. -/
def parse_record (cs : List Char) : Option (restore_entry × List Char) :=
  match read_string255 cs with
  | none => none
  | some (n, cs1) =>
    match read_int cs1 with
    | none => none
    | some (w, cs2) =>
      match read_int cs2 with
      | none => none
      | some (hv, cs3) =>
        match read_int cs3 with
        | none => none
        | some (r, cs4) => some ({ name := n, width := w, height := hv, refresh := r }, cs4)

/-- Fuel-driven `load_state` read loop: keep parsing records (in file order)
while `fscanf` returns 4; any fuel above the stream length is enough. -/
def parse_records_fuel : Nat → List Char → List restore_entry
  | 0, _ => []
  | fuel + 1, cs =>
    match parse_record cs with
    | none => []
    | some (e, r) => e :: parse_records_fuel fuel r

/-- The records of a state file in file order. -/
def parse_records (cs : List Char) : List restore_entry :=
  parse_records_fuel (cs.length + 1) cs

/-- Embeds `load_state` on a readable file with the given content: each
parsed record is inserted at the front of the entry list
(`wl_list_insert`), so the resulting iteration order is the reverse of
file order. -/
def load_state (content : String) : List restore_entry :=
  (parse_records content.data).reverse

/-- Embeds `find_restore_entry`: first entry in iteration order whose name
compares equal (`strcmp == 0`). -/
def find_restore_entry (entries : List restore_entry) (name : String) : Option restore_entry :=
  entries.find? (fun e => e.name == name)

/-- Embeds `find_mode`: first mode in iteration order matching the triple. -/
def find_mode (head : head_info) (width height refresh : Int) : Option mode_info :=
  head.modes.find? (fun e => e.width == width && e.height == height && e.refresh == refresh)

/-- One action of a `zwlr_output_configuration_v1` transaction.  The C
program only ever emits `enable_and_set_mode` pairs; `disable_head` exists
in the protocol and is included so that its absence is expressible. -/
inductive config_action where
  | enable_and_set_mode (head : Nat) (mode : Nat)
  | disable_head (head : Nat)
deriving DecidableEq

/-- The head a configuration action is about. -/
def action_head : config_action → Nat
  | .enable_and_set_mode h _ => h
  | .disable_head h => h

/-- The transaction-building loop shared by `apply_fullscreen` and
`apply_restore`: for each head in registry order, if the target function
yields a mode, enable the head and set that mode; otherwise emit nothing
for the head. -/
def build_transaction (heads : List head_info) (target : head_info → Option mode_info) :
    List config_action :=
  heads.flatMap (fun h =>
    match target h with
    | some m => [config_action.enable_and_set_mode h.obj m.obj]
    | none => [])

/-- The per-head target function of `apply_restore`: skip unnamed heads,
look the name up among the loaded entries, then look the stored triple up
among the head's modes. -/
def restore_target (entries : List restore_entry) (head : head_info) : Option mode_info :=
  match head.name with
  | none => none
  | some n =>
    match find_restore_entry entries n with
    | none => none
    | some e => find_mode head e.width e.height e.refresh

/-- The observable outcome of one apply operation: the return value of
`save_state` if it was called, the submitted transaction if one was
created and applied, and the function's return value. -/
structure apply_result where
  save_return : Option Int
  txn : Option (List config_action)
  ret : Int
deriving DecidableEq

/-- The return value of `save_state` given whether the path is writable
(`fopen` failure reports to stderr and returns -1). -/
def save_state_run (writable : Bool) : Int :=
  if writable then 0 else -1

/-- Embeds `apply_fullscreen`: save the state if a path was given (the
return value of `save_state` is ignored), then unconditionally create the
configuration, fill it via `select_fullscreen_mode`, apply it, and
return 0. -/
def apply_fullscreen (heads : List head_info) (state_file : Option String) (writable : Bool) :
    apply_result :=
  match state_file with
  | none =>
    { save_return := none, txn := some (build_transaction heads select_fullscreen_mode), ret := 0 }
  | some _ =>
    { save_return := some (save_state_run writable),
      txn := some (build_transaction heads select_fullscreen_mode), ret := 0 }

/-- Embeds `apply_restore`: fail (return 1, no transaction) without a state
file or when the loaded entry list is empty; otherwise build and apply the
transaction driven by `restore_target`.  `content = none` models a missing
file (`fopen` failure inside `load_state` yields an empty list). -/
def apply_restore (heads : List head_info) (state_file : Option String)
    (content : Option String) : apply_result :=
  match state_file with
  | none => { save_return := none, txn := none, ret := 1 }
  | some _ =>
    let entries := match content with
      | none => []
      | some s => load_state s
    if entries.isEmpty then { save_return := none, txn := none, ret := 1 }
    else
      { save_return := none, txn := some (build_transaction heads (restore_target entries)),
        ret := 0 }

/-- The dispatch `main` performs after its event loop: the loop only exits
once `done` is set, and then the selected operation runs unconditionally;
the result is the transaction that operation submits, if any. -/
def main_dispatch (s : client_state) (do_fullscreen : Bool) (state_file : Option String)
    (writable : Bool) (content : Option String) : Option (List config_action) :=
  if s.done then
    if do_fullscreen then (apply_fullscreen s.heads state_file writable).txn
    else (apply_restore s.heads state_file content).txn
  else none

/-- The `preferred` local of the selection loop, fed with the modes in
iteration order: the last preferred entry wins. -/
def pref_fold (p : Option mode_info) : List mode_info → Option mode_info
  | [] => p
  | e :: tl => pref_fold (if e.preferred then some e else p) tl

/-- The `largest`/`largest_area` locals of the selection loop. -/
def largest_fold (b : Option mode_info) (a : Int) : List mode_info → Option mode_info × Int
  | [] => (b, a)
  | e :: tl =>
    if a < e.width * e.height then largest_fold (some e) (e.width * e.height) tl
    else largest_fold b a tl

theorem foldl_sel_step (ms : List mode_info) : ∀ p b a,
    ms.foldl sel_step { preferred := p, largest := b, largest_area := a } =
      { preferred := pref_fold p ms, largest := (largest_fold b a ms).1,
        largest_area := (largest_fold b a ms).2 } := by
  induction ms with
  | nil => intro p b a; rfl
  | cons e tl ih =>
    intro p b a
    simp only [List.foldl_cons, sel_step, pref_fold, largest_fold]
    by_cases hlt : a < e.width * e.height
    · simp [hlt, ih]
    · simp [hlt, ih]

theorem find?_eq_head?_filter {α : Type} (p : α → Bool) :
    ∀ l : List α, l.find? p = (l.filter p).head? := by
  intro l
  induction l with
  | nil => rfl
  | cons x xs ih =>
    cases hx : p x with
    | false =>
      simp only [List.find?_cons, List.filter_cons, hx]
      exact ih
    | true =>
      simp only [List.find?_cons, List.filter_cons, hx]
      rfl

theorem pref_fold_eq (ms : List mode_info) : ∀ p,
    pref_fold p ms =
      match ms.reverse.find? (fun e => e.preferred) with
      | some x => some x
      | none => p := by
  induction ms with
  | nil => intro p; rfl
  | cons e tl ih =>
    intro p
    simp only [pref_fold, ih, List.reverse_cons, List.find?_append]
    cases hf : tl.reverse.find? (fun e => e.preferred) with
    | some x => simp [Option.or]
    | none =>
      by_cases hp : e.preferred
      · simp [Option.or, List.find?_cons, hp]
      · simp [Option.or, List.find?_cons, hp]

theorem last_filter_eq_reverse_find? {α : Type} (p : α → Bool) (l : List α) :
    (l.filter p).getLast? = l.reverse.find? p := by
  rw [find?_eq_head?_filter, List.filter_reverse, List.head?_reverse]

theorem select_fullscreen_mode_eq (h : head_info) :
    select_fullscreen_mode h =
      match (h.modes.filter (fun e => e.preferred)).getLast? with
      | some x => some x
      | none => (largest_fold none (-1) h.modes).1 := by
  rw [last_filter_eq_reverse_find?]
  simp only [select_fullscreen_mode, foldl_sel_step, pref_fold_eq]
  cases h.modes.reverse.find? (fun e => e.preferred) <;> rfl

theorem largest_fold_keep (ms : List mode_info) : ∀ b a,
    (∀ e ∈ ms, e.width * e.height ≤ a) → largest_fold b a ms = (b, a) := by
  induction ms with
  | nil => intro b a _; rfl
  | cons e tl ih =>
    intro b a hall
    have he : e.width * e.height ≤ a := hall e (List.mem_cons_self e tl)
    simp only [largest_fold, if_neg (not_lt.mpr he)]
    exact ih b a (fun x hx => hall x (List.mem_cons_of_mem e hx))

theorem largest_fold_found (ms : List mode_info) : ∀ b a,
    (∃ e ∈ ms, a < e.width * e.height) →
    ∃ m l₁ l₂, (largest_fold b a ms).1 = some m ∧ ms = l₁ ++ m :: l₂ ∧
      a < m.width * m.height ∧
      (∀ e ∈ l₁, e.width * e.height < m.width * m.height) ∧
      (∀ e ∈ l₂, e.width * e.height ≤ m.width * m.height) := by
  induction ms with
  | nil => intro b a hex; simp at hex
  | cons e tl ih =>
    intro b a hex
    by_cases hgt : a < e.width * e.height
    · simp only [largest_fold, if_pos hgt]
      by_cases h2 : ∃ x ∈ tl, e.width * e.height < x.width * x.height
      · obtain ⟨m, l₁, l₂, h1, h2', h3, h4, h5⟩ := ih (some e) (e.width * e.height) h2
        refine ⟨m, e :: l₁, l₂, h1, by rw [h2']; rfl, lt_trans hgt h3, ?_, h5⟩
        intro x hx
        rcases List.mem_cons.mp hx with hx | hx
        · rw [hx]; exact h3
        · exact h4 x hx
      · push_neg at h2
        rw [largest_fold_keep tl (some e) (e.width * e.height) h2]
        exact ⟨e, [], tl, rfl, rfl, hgt, by intro x hx; simp at hx, h2⟩
    · simp only [largest_fold, if_neg hgt]
      obtain ⟨x, hx, hlt⟩ := hex
      rcases List.mem_cons.mp hx with hx' | hx'
      · exact absurd (hx' ▸ hlt) hgt
      · obtain ⟨m, l₁, l₂, h1, h2', h3, h4, h5⟩ := ih b a ⟨x, hx', hlt⟩
        refine ⟨m, e :: l₁, l₂, h1, by rw [h2']; rfl, h3, ?_, h5⟩
        intro y hy
        rcases List.mem_cons.mp hy with hy' | hy'
        · rw [hy']; exact lt_of_le_of_lt (not_lt.mp hgt) h3
        · exact h4 y hy'

/-- C2, counterexample: a head whose single mode is not preferred and has
negative area (width -1).  The claim demands the area-maximizing mode (the
only mode), but `select_fullscreen_mode` returns `none`, because the
running maximum starts at -1 and the area -1 is not strictly greater. -/
theorem claim_C2_counterexample :
    select_fullscreen_mode
        { obj := 1, name := some ("A"), enabled := true, current := none,
          modes := [{ obj := 10, width := -1, height := 1, refresh := 60, preferred := false }] }
      = none ∧
    ([({ obj := 10, width := -1, height := 1, refresh := 60, preferred := false } : mode_info)].filter
        (fun e => e.preferred)) = [] ∧
    [({ obj := 10, width := -1, height := 1, refresh := 60, preferred := false } : mode_info)] ≠ [] := by
  decide

/-- C2, amended: when exactly one mode is flagged preferred,
`select_fullscreen_mode` returns it regardless of area; when no mode is
flagged preferred it returns the first mode in enumeration order of
maximal width×height provided some mode has nonnegative area, and `none`
when every mode has negative area; with zero modes it returns `none`. -/
theorem claim_C2 (h : head_info) :
    (∀ e, h.modes.filter (fun x => x.preferred) = [e] → select_fullscreen_mode h = some e) ∧
    (h.modes.filter (fun x => x.preferred) = [] →
      ((∃ m ∈ h.modes, 0 ≤ m.width * m.height) →
        ∃ m l₁ l₂, select_fullscreen_mode h = some m ∧ h.modes = l₁ ++ m :: l₂ ∧
          (∀ e ∈ h.modes, e.width * e.height ≤ m.width * m.height) ∧
          (∀ e ∈ l₁, e.width * e.height < m.width * m.height)) ∧
      ((∀ m ∈ h.modes, m.width * m.height < 0) → select_fullscreen_mode h = none)) ∧
    (h.modes = [] → select_fullscreen_mode h = none) := by
  refine ⟨?_, ?_, ?_⟩
  · intro e hf
    rw [select_fullscreen_mode_eq, hf]
    simp
  · intro hf
    have hsel : select_fullscreen_mode h = (largest_fold none (-1) h.modes).1 := by
      rw [select_fullscreen_mode_eq, hf]; rfl
    constructor
    · rintro ⟨m0, hm0, hpos⟩
      have hex : ∃ e ∈ h.modes, (-1 : Int) < e.width * e.height :=
        ⟨m0, hm0, lt_of_lt_of_le (by norm_num) hpos⟩
      obtain ⟨m, l₁, l₂, h1, h2, _h3, h4, h5⟩ := largest_fold_found h.modes none (-1) hex
      refine ⟨m, l₁, l₂, by rw [hsel, h1], h2, ?_, h4⟩
      intro e he
      rw [h2] at he
      rcases List.mem_append.mp he with he | he
      · exact le_of_lt (h4 e he)
      · rcases List.mem_cons.mp he with he | he
        · rw [he]
        · exact h5 e he
    · intro hneg
      have hall : ∀ e ∈ h.modes, e.width * e.height ≤ -1 := by
        intro e he
        have h1 := hneg e he
        have h2 := Int.add_one_le_iff.mpr h1
        linarith
      rw [hsel, largest_fold_keep h.modes none (-1) hall]
  · intro hm
    rw [select_fullscreen_mode_eq, hm]
    simp [largest_fold]

/-- C2, witness: the amended theorem applied at the spec's own examples
(a smaller preferred mode beating a larger one; the 3840×2160 maximum; a
head with zero modes). -/
theorem claim_C2_witness :
    select_fullscreen_mode
        { obj := 1, name := some ("W"), enabled := true, current := none,
          modes := [{ obj := 1, width := 1920, height := 1080, refresh := 60, preferred := false },
                    { obj := 2, width := 1280, height := 720, refresh := 60, preferred := true }] }
      = some { obj := 2, width := 1280, height := 720, refresh := 60, preferred := true } ∧
    (∃ m l₁ l₂,
      select_fullscreen_mode
          { obj := 2, name := some ("W2"), enabled := true, current := none,
            modes := [{ obj := 1, width := 1920, height := 1080, refresh := 60, preferred := false },
                      { obj := 2, width := 3840, height := 2160, refresh := 60, preferred := false },
                      { obj := 3, width := 2560, height := 1440, refresh := 60, preferred := false }] }
        = some m ∧
      ({ obj := 2, name := some ("W2"), enabled := true, current := none,
         modes := [{ obj := 1, width := 1920, height := 1080, refresh := 60, preferred := false },
                   { obj := 2, width := 3840, height := 2160, refresh := 60, preferred := false },
                   { obj := 3, width := 2560, height := 1440, refresh := 60, preferred := false }] }
          : head_info).modes = l₁ ++ m :: l₂ ∧
      (∀ e ∈ ({ obj := 2, name := some ("W2"), enabled := true, current := none,
                modes := [{ obj := 1, width := 1920, height := 1080, refresh := 60, preferred := false },
                          { obj := 2, width := 3840, height := 2160, refresh := 60, preferred := false },
                          { obj := 3, width := 2560, height := 1440, refresh := 60, preferred := false }] }
                 : head_info).modes, e.width * e.height ≤ m.width * m.height) ∧
      (∀ e ∈ l₁, e.width * e.height < m.width * m.height)) ∧
    select_fullscreen_mode
        { obj := 3, name := some ("W3"), enabled := true, current := none, modes := [] } = none := by
  refine ⟨?_, ?_, ?_⟩
  · exact (claim_C2 _).1 _ (by decide)
  · exact ((claim_C2 _).2.1 (by decide)).1
      ⟨{ obj := 1, width := 1920, height := 1080, refresh := 60, preferred := false },
        by decide, by decide⟩
  · exact (claim_C2 _).2.2 rfl

/-- C3, counterexample: with two preferred modes in enumeration order
[mA, mB], `select_fullscreen_mode` returns mB, the *last* one encountered
(the loop overwrites `preferred` on every flagged entry), not the first
one mA the claim demands. -/
theorem claim_C3_counterexample :
    select_fullscreen_mode
        { obj := 1, name := some ("A"), enabled := true, current := none,
          modes := [{ obj := 1, width := 800, height := 600, refresh := 60, preferred := true },
                    { obj := 2, width := 640, height := 480, refresh := 60, preferred := true }] }
      = some { obj := 2, width := 640, height := 480, refresh := 60, preferred := true } ∧
    (({ obj := 1, name := some ("A"), enabled := true, current := none,
        modes := [{ obj := 1, width := 800, height := 600, refresh := 60, preferred := true },
                  { obj := 2, width := 640, height := 480, refresh := 60, preferred := true }] }
        : head_info).modes.filter (fun e => e.preferred)).head?
      = some { obj := 1, width := 800, height := 600, refresh := 60, preferred := true } ∧
    ({ obj := 2, width := 640, height := 480, refresh := 60, preferred := true } : mode_info)
      ≠ { obj := 1, width := 800, height := 600, refresh := 60, preferred := true } := by
  decide

/-- C3, amended: with more than one preferred-flagged mode,
`select_fullscreen_mode` returns the *last* preferred-flagged mode in
enumeration order over the head's mode set. -/
theorem claim_C3 (h : head_info)
    (hmult : 2 ≤ (h.modes.filter (fun e => e.preferred)).length) :
    ∃ e, (h.modes.filter (fun e => e.preferred)).getLast? = some e ∧
      select_fullscreen_mode h = some e := by
  cases hl : (h.modes.filter (fun e => e.preferred)).getLast? with
  | none =>
    rw [List.getLast?_eq_none_iff] at hl
    rw [hl] at hmult
    simp at hmult
  | some e =>
    refine ⟨e, rfl, ?_⟩
    rw [select_fullscreen_mode_eq, hl]

/-- C3, witness: the amended theorem applied at a head with two preferred
modes. -/
theorem claim_C3_witness :
    ∃ e, (({ obj := 1, name := some ("B"), enabled := true, current := none,
             modes := [{ obj := 1, width := 800, height := 600, refresh := 60, preferred := true },
                       { obj := 2, width := 640, height := 480, refresh := 60, preferred := true }] }
             : head_info).modes.filter (fun e => e.preferred)).getLast? = some e ∧
      select_fullscreen_mode
          { obj := 1, name := some ("B"), enabled := true, current := none,
            modes := [{ obj := 1, width := 800, height := 600, refresh := 60, preferred := true },
                      { obj := 2, width := 640, height := 480, refresh := 60, preferred := true }] }
        = some e :=
  claim_C3 _ (by decide)

/-- C10: a current-mode event whose mode reference matches no mode of the
head by identity leaves the head entirely unchanged; and the handler can
never change any field other than `current`. -/
theorem claim_C10 (h : head_info) (m : Nat) :
    ((∀ e ∈ h.modes, e.obj ≠ m) → head_handle_current_mode h m = h) ∧
    ((head_handle_current_mode h m).obj = h.obj ∧
     (head_handle_current_mode h m).name = h.name ∧
     (head_handle_current_mode h m).enabled = h.enabled ∧
     (head_handle_current_mode h m).modes = h.modes) := by
  constructor
  · intro hne
    have hany : h.modes.any (fun e => e.obj == m) = false := by
      rw [List.any_eq_false]
      intro e he
      simp [hne e he]
    simp [head_handle_current_mode, hany]
  · unfold head_handle_current_mode
    split <;> simp

/-- C10, witness: a current-mode event carrying the unknown identity 99 is
a no-op on a concrete head. -/
theorem claim_C10_witness :
    head_handle_current_mode
        { obj := 1, name := some ("E"), enabled := true, current := some 10,
          modes := [{ obj := 10, width := 1920, height := 1080, refresh := 60, preferred := true }] }
        99
      = { obj := 1, name := some ("E"), enabled := true, current := some 10,
          modes := [{ obj := 10, width := 1920, height := 1080, refresh := 60, preferred := true }] } :=
  (claim_C10 _ 99).1 (by decide)

/-- C6, counterexample: after a head-finished event for head 1, the head —
together with its mode — is still in the registry, contradicting the
claimed removal (the C handler body is empty). -/
theorem claim_C6_counterexample :
    process_event
        { serial := 5, done := true,
          heads := [{ obj := 1, name := some ("E"), enabled := true, current := some 10,
                      modes := [{ obj := 10, width := 1920, height := 1080, refresh := 60,
                                  preferred := true }] }] }
        (event.head_finished 1)
      = { serial := 5, done := true,
          heads := [{ obj := 1, name := some ("E"), enabled := true, current := some 10,
                      modes := [{ obj := 10, width := 1920, height := 1080, refresh := 60,
                                  preferred := true }] }] } ∧
    (process_event
        { serial := 5, done := true,
          heads := [{ obj := 1, name := some ("E"), enabled := true, current := some 10,
                      modes := [{ obj := 10, width := 1920, height := 1080, refresh := 60,
                                  preferred := true }] }] }
        (event.head_finished 1)).heads.any (fun i => i.obj == 1) = true := by
  decide

/-- C6, amended: a head-finished event is ignored entirely — the registry
(and the whole client state) is left unchanged; the head and its modes
remain. -/
theorem claim_C6 (s : client_state) (h : Nat) :
    process_event s (event.head_finished h) = s := by
  simp [process_event, update_head, head_handle_finished]

/-- C7, counterexample: a concrete run in which the manager-finished event
arrives, after which `main` leaves its event loop (`done` is set) and the
fullscreen operation still creates and applies a configuration
transaction enabling head 1 with mode 10. -/
theorem claim_C7_counterexample :
    ([event.head_added 1, event.head_mode 1 10, event.mode_size 10 1920 1080,
      event.mode_refresh 10 60000, event.mode_preferred 10, event.manager_done 5,
      event.manager_finished].foldl process_event
        { serial := 0, done := false, heads := [] }).done = true ∧
    main_dispatch
        ([event.head_added 1, event.head_mode 1 10, event.mode_size 10 1920 1080,
          event.mode_refresh 10 60000, event.mode_preferred 10, event.manager_done 5,
          event.manager_finished].foldl process_event
            { serial := 0, done := false, heads := [] })
        true none true none
      = some [config_action.enable_and_set_mode 1 10] := by
  decide

/-- C7, amended: a manager-finished event sets the done flag (leaving the
serial and the registry unchanged), and the client then proceeds exactly
as after a done event — the selected operation still creates and submits
a configuration transaction; nothing marks the manager unusable. -/
theorem claim_C7 (s : client_state) (sf : Option String) (w : Bool) (c : Option String) :
    (process_event s event.manager_finished).done = true ∧
    (process_event s event.manager_finished).serial = s.serial ∧
    (process_event s event.manager_finished).heads = s.heads ∧
    main_dispatch (process_event s event.manager_finished) true sf w c =
      some (build_transaction s.heads select_fullscreen_mode) := by
  refine ⟨rfl, rfl, rfl, ?_⟩
  cases sf <;> rfl

/-- C5, counterexample: with an unwritable state file, `apply_fullscreen`
still builds and applies the transaction (enabling head 1 with mode 10)
and returns 0; the `save_state` failure (-1) is not propagated and does
not abort the operation. -/
theorem claim_C5_counterexample :
    apply_fullscreen
        [{ obj := 1, name := some ("E"), enabled := true, current := some 10,
           modes := [{ obj := 10, width := 1920, height := 1080, refresh := 60,
                       preferred := true }] }]
        (some ("state.txt")) false
      = { save_return := some (-1), txn := some [config_action.enable_and_set_mode 1 10],
          ret := 0 } := by
  decide

/-- C5, amended: when opening the state file for writing fails,
`save_state` reports the failure on the diagnostic stream and returns -1,
but `apply_fullscreen` ignores that value: the configuration transaction
is still created and applied exactly as in the writable case, and the
operation returns 0 (success) to its caller. -/
theorem claim_C5 (heads : List head_info) (f : String) :
    apply_fullscreen heads (some f) false =
      { save_return := some (-1),
        txn := some (build_transaction heads select_fullscreen_mode), ret := 0 } :=
  rfl

theorem build_transaction_not_mem (target : head_info → Option mode_info) :
    ∀ (heads : List head_info) (x : Nat), x ∉ heads.map (fun i => i.obj) →
      (build_transaction heads target).filter (fun a => action_head a == x) = [] := by
  intro heads
  induction heads with
  | nil => intro x _; rfl
  | cons hd tl ih =>
    intro x hx
    simp only [List.map_cons, List.mem_cons, not_or] at hx
    obtain ⟨hx1, hx2⟩ := hx
    have hstep : build_transaction (hd :: tl) target =
        (match target hd with
         | some m => [config_action.enable_and_set_mode hd.obj m.obj]
         | none => []) ++ build_transaction tl target := rfl
    rw [hstep, List.filter_append, ih x hx2, List.append_nil]
    cases ht : target hd with
    | none => rfl
    | some m =>
      have : (hd.obj == x) = false := by
        simp
        intro hc
        exact hx1 hc.symm
      simp [action_head, this]

theorem build_transaction_filter (target : head_info → Option mode_info) :
    ∀ (heads : List head_info) (h : head_info), h ∈ heads →
      (heads.map (fun i => i.obj)).Nodup →
      (build_transaction heads target).filter (fun a => action_head a == h.obj) =
        (match target h with
         | some m => [config_action.enable_and_set_mode h.obj m.obj]
         | none => []) := by
  intro heads
  induction heads with
  | nil => intro h hmem _; simp at hmem
  | cons hd tl ih =>
    intro h hmem hnd
    have hstep : build_transaction (hd :: tl) target =
        (match target hd with
         | some m => [config_action.enable_and_set_mode hd.obj m.obj]
         | none => []) ++ build_transaction tl target := rfl
    rw [hstep, List.filter_append]
    rw [List.map_cons, List.nodup_cons] at hnd
    obtain ⟨hnotin, hnd'⟩ := hnd
    rcases List.mem_cons.mp hmem with heq | hmem'
    · subst heq
      rw [build_transaction_not_mem target tl h.obj hnotin, List.append_nil]
      cases ht : target h with
      | none => rfl
      | some m => simp [action_head]
    · have hobjne : (hd.obj == h.obj) = false := by
        simp
        intro hc
        exact hnotin (hc ▸ List.mem_map_of_mem (fun i => i.obj) hmem')
      have h1 : (match target hd with
         | some m => [config_action.enable_and_set_mode hd.obj m.obj]
         | none => []).filter (fun a => action_head a == h.obj) = [] := by
        cases target hd with
        | none => rfl
        | some m => simp [action_head, hobjne]
      rw [h1, List.nil_append]
      exact ih h hmem' hnd'

/-- C1: in both apply operations, for every registered head (with distinct
protocol identities) the transaction's actions concerning that head are
exactly one enable-and-set-mode pair when the target function yields a
mode, and nothing at all — neither enable nor disable — when it yields
none. -/
theorem claim_C1 (heads : List head_info) (entries : List restore_entry) (h : head_info)
    (hmem : h ∈ heads) (hnd : (heads.map (fun i => i.obj)).Nodup) :
    ((build_transaction heads select_fullscreen_mode).filter
        (fun a => action_head a == h.obj) =
      (match select_fullscreen_mode h with
       | some m => [config_action.enable_and_set_mode h.obj m.obj]
       | none => [])) ∧
    ((build_transaction heads (restore_target entries)).filter
        (fun a => action_head a == h.obj) =
      (match restore_target entries h with
       | some m => [config_action.enable_and_set_mode h.obj m.obj]
       | none => [])) :=
  ⟨build_transaction_filter select_fullscreen_mode heads h hmem hnd,
   build_transaction_filter (restore_target entries) heads h hmem hnd⟩

/-- C1, witness: two heads — one with a selectable mode, one with none —
under both the fullscreen and the restore target functions. -/
theorem claim_C1_witness :
    (build_transaction
        [{ obj := 1, name := some ("eDP-1"), enabled := true, current := some 10,
           modes := [{ obj := 10, width := 1920, height := 1080, refresh := 60,
                       preferred := true }] },
         { obj := 2, name := some ("HDMI-1"), enabled := true, current := none, modes := [] }]
        select_fullscreen_mode).filter (fun a => action_head a == 1)
      = [config_action.enable_and_set_mode 1 10] ∧
    (build_transaction
        [{ obj := 1, name := some ("eDP-1"), enabled := true, current := some 10,
           modes := [{ obj := 10, width := 1920, height := 1080, refresh := 60,
                       preferred := true }] },
         { obj := 2, name := some ("HDMI-1"), enabled := true, current := none, modes := [] }]
        (restore_target [{ name := "eDP-1", width := 1920, height := 1080, refresh := 60 }])).filter
        (fun a => action_head a == 2)
      = [] := by
  constructor
  · exact ((claim_C1 _ [{ name := "eDP-1", width := 1920, height := 1080, refresh := 60 }]
      { obj := 1, name := some ("eDP-1"), enabled := true, current := some 10,
        modes := [{ obj := 10, width := 1920, height := 1080, refresh := 60,
                    preferred := true }] }
      (by decide) (by decide)).1).trans (by decide)
  · exact ((claim_C1 _ [{ name := "eDP-1", width := 1920, height := 1080, refresh := 60 }]
      { obj := 2, name := some ("HDMI-1"), enabled := true, current := none, modes := [] }
      (by decide) (by decide)).2).trans (by decide)

theorem digit_char_val (d : Nat) (hd : d < 10) : digit_val (digit_char d) = d := by
  interval_cases d <;> decide

theorem digit_char_is_digit (d : Nat) (hd : d < 10) : is_digit (digit_char d) = true := by
  interval_cases d <;> decide

theorem is_digit_bounds (c : Char) (hc : is_digit c = true) : 48 ≤ c.toNat ∧ c.toNat ≤ 57 := by
  simp only [is_digit, Bool.and_eq_true, decide_eq_true_eq] at hc
  exact hc

theorem is_digit_ne_low (c : Char) (hc : is_digit c = true) (x : Char) (hx : x.toNat < 48) :
    (c == x) = false := by
  cases hcx : c == x with
  | false => rfl
  | true =>
    exfalso
    have hcx' : c = x := eq_of_beq hcx
    have hb := (is_digit_bounds c hc).1
    rw [hcx'] at hb
    omega

theorem is_digit_not_ws (c : Char) (hc : is_digit c = true) : ws_char c = false := by
  simp only [ws_char]
  rw [is_digit_ne_low c hc ' ' (by decide), is_digit_ne_low c hc '\t' (by decide),
    is_digit_ne_low c hc '\n' (by decide), is_digit_ne_low c hc '\x0b' (by decide),
    is_digit_ne_low c hc '\x0c' (by decide), is_digit_ne_low c hc '\r' (by decide)]
  rfl

theorem nat_digits_fuel_all_digits (f : Nat) : ∀ n, n < f →
    ∀ c ∈ nat_digits_fuel f n, is_digit c = true := by
  induction f with
  | zero => intro n hn; omega
  | succ f ih =>
    intro n hn c hc
    by_cases h10 : n < 10
    · simp only [nat_digits_fuel, if_pos h10, List.mem_singleton] at hc
      rw [hc]
      exact digit_char_is_digit n h10
    · simp only [nat_digits_fuel, if_neg h10, List.mem_append, List.mem_singleton] at hc
      rcases hc with hc | hc
      · exact ih (n / 10) (by omega) c hc
      · rw [hc]
        exact digit_char_is_digit (n % 10) (by omega)

theorem nat_digits_all_digits (n : Nat) : ∀ c ∈ nat_digits n, is_digit c = true :=
  nat_digits_fuel_all_digits (n + 1) n (Nat.lt_succ_self n)

theorem nat_digits_fuel_ne_nil (f : Nat) : ∀ n, n < f → nat_digits_fuel f n ≠ [] := by
  induction f with
  | zero => intro n hn; omega
  | succ f _ =>
    intro n _
    by_cases h10 : n < 10
    · simp [nat_digits_fuel, h10]
    · simp [nat_digits_fuel, h10]

theorem nat_digits_ne_nil (n : Nat) : nat_digits n ≠ [] :=
  nat_digits_fuel_ne_nil (n + 1) n (Nat.lt_succ_self n)

theorem nat_digits_fuel_foldl (f : Nat) : ∀ n acc, n < f →
    (nat_digits_fuel f n).foldl (fun a c => a * 10 + digit_val c) acc =
      acc * 10 ^ (nat_digits_fuel f n).length + n := by
  induction f with
  | zero => intro n acc hn; omega
  | succ f ih =>
    intro n acc hn
    by_cases h10 : n < 10
    · simp only [nat_digits_fuel, if_pos h10, List.foldl_cons, List.foldl_nil,
        List.length_singleton, pow_one]
      rw [digit_char_val n h10]
    · simp only [nat_digits_fuel, if_neg h10, List.foldl_append, List.foldl_cons,
        List.foldl_nil, List.length_append, List.length_singleton]
      rw [ih (n / 10) acc (by omega), digit_char_val (n % 10) (by omega)]
      have hdm : n / 10 * 10 + n % 10 = n := by omega
      calc (acc * 10 ^ (nat_digits_fuel f (n / 10)).length + n / 10) * 10 + n % 10
          = acc * (10 ^ (nat_digits_fuel f (n / 10)).length * 10) + (n / 10 * 10 + n % 10) := by
            ring
        _ = acc * 10 ^ ((nat_digits_fuel f (n / 10)).length + 1) + n := by rw [hdm, pow_succ]

theorem nat_digits_foldl (n acc : Nat) :
    (nat_digits n).foldl (fun a c => a * 10 + digit_val c) acc =
      acc * 10 ^ (nat_digits n).length + n :=
  nat_digits_fuel_foldl (n + 1) n acc (Nat.lt_succ_self n)

theorem read_nat_digits (ds : List Char) : ∀ rest acc, (∀ c ∈ ds, is_digit c = true) →
    read_nat acc (ds ++ rest) =
      read_nat (ds.foldl (fun a c => a * 10 + digit_val c) acc) rest := by
  induction ds with
  | nil => intro rest acc _; rfl
  | cons d ds ih =>
    intro rest acc hall
    have hd : is_digit d = true := hall d (List.mem_cons_self d ds)
    simp only [List.cons_append, read_nat, if_pos hd, List.foldl_cons]
    exact ih rest (acc * 10 + digit_val d) (fun c hc => hall c (List.mem_cons_of_mem d hc))

theorem read_nat_stop (acc : Nat) (rest : List Char)
    (h : ∀ c cs, rest = c :: cs → is_digit c = false) : read_nat acc rest = (acc, rest) := by
  cases rest with
  | nil => rfl
  | cons c cs => simp [read_nat, h c cs rfl]

theorem read_nat_exact (n : Nat) (rest : List Char)
    (hrest : ∀ c cs, rest = c :: cs → is_digit c = false) :
    read_nat 0 (nat_digits n ++ rest) = (n, rest) := by
  rw [read_nat_digits (nat_digits n) rest 0 (nat_digits_all_digits n), nat_digits_foldl,
    read_nat_stop _ rest hrest]
  simp

theorem dropWhile_ws_append (pre : List Char) : ∀ cs, (∀ c ∈ pre, ws_char c = true) →
    (pre ++ cs).dropWhile ws_char = cs.dropWhile ws_char := by
  induction pre with
  | nil => intro cs _; rfl
  | cons p ps ih =>
    intro cs hpre
    have hp : ws_char p = true := hpre p (List.mem_cons_self p ps)
    simp only [List.cons_append, List.dropWhile_cons, if_pos hp]
    exact ih cs (fun c hc => hpre c (List.mem_cons_of_mem p hc))

theorem dropWhile_not_ws (c : Char) (rest : List Char) (hc : ws_char c = false) :
    (c :: rest).dropWhile ws_char = c :: rest := by
  simp [List.dropWhile_cons, hc]

theorem neg_toNat_cast (i : Int) (h : i < 0) : -(((-i).toNat : Nat) : Int) = i := by
  rw [Int.toNat_of_nonneg (by omega)]
  omega

theorem read_int_render (i : Int) (pre rest : List Char)
    (hpre : ∀ c ∈ pre, ws_char c = true)
    (hrest : ∀ c cs, rest = c :: cs → is_digit c = false) :
    read_int (pre ++ (int_chars i ++ rest)) = some (i, rest) := by
  unfold read_int
  rw [dropWhile_ws_append pre (int_chars i ++ rest) hpre]
  by_cases hneg : i < 0
  · simp only [int_chars, if_pos hneg, List.cons_append]
    rw [dropWhile_not_ws '-' (nat_digits (-i).toNat ++ rest) (by decide)]
    cases hnd : nat_digits (-i).toNat with
    | nil => exact absurd hnd (nat_digits_ne_nil _)
    | cons d ds =>
      have hd : is_digit d = true := by
        have := nat_digits_all_digits (-i).toNat d
        rw [hnd] at this
        exact this (List.mem_cons_self d ds)
      simp only [List.cons_append, hd, if_pos]
      have hrn : read_nat 0 (nat_digits (-i).toNat ++ rest) = ((-i).toNat, rest) :=
        read_nat_exact _ rest hrest
      rw [hnd] at hrn
      simp only [List.cons_append] at hrn
      simp only [hrn]
      rw [neg_toNat_cast i hneg]
      simp
  · simp only [int_chars, if_neg hneg]
    cases hnd : nat_digits i.toNat with
    | nil => exact absurd hnd (nat_digits_ne_nil _)
    | cons d ds =>
      have hd : is_digit d = true := by
        have := nat_digits_all_digits i.toNat d
        rw [hnd] at this
        exact this (List.mem_cons_self d ds)
      simp only [List.cons_append]
      rw [dropWhile_not_ws d (ds ++ rest) (is_digit_not_ws d hd)]
      simp only [is_digit_ne_low d hd '-' (by decide), is_digit_ne_low d hd '+' (by decide),
        hd, Bool.false_eq_true, if_false, if_true, if_pos]
      have hrn : read_nat 0 (nat_digits i.toNat ++ rest) = (i.toNat, rest) :=
        read_nat_exact _ rest hrest
      rw [hnd] at hrn
      simp only [List.cons_append] at hrn
      simp only [hrn]
      rw [Int.toNat_of_nonneg (by omega)]

theorem scan_tok_exact (tok : List Char) : ∀ n rest, tok.length ≤ n →
    (∀ c ∈ tok, ws_char c = false) →
    (rest = [] ∨ ∃ c cs, rest = c :: cs ∧ ws_char c = true) →
    scan_tok n (tok ++ rest) = (tok, rest) := by
  induction tok with
  | nil =>
    intro n rest _ _ hrest
    rcases hrest with hrest | ⟨c, cs, hrest, hc⟩
    · subst hrest
      cases n <;> rfl
    · subst hrest
      cases n with
      | zero => rfl
      | succ n => simp [scan_tok, hc]
  | cons t ts ih =>
    intro n rest hlen hnws hrest
    cases n with
    | zero => simp at hlen
    | succ n =>
      have ht : ws_char t = false := hnws t (List.mem_cons_self t ts)
      simp only [List.cons_append, scan_tok, ht, Bool.false_eq_true, if_false, List.append_eq]
      rw [ih n rest (by simpa using hlen) (fun c hc => hnws c (List.mem_cons_of_mem t hc)) hrest]

theorem read_string255_render (tok : List Char) (pre rest : List Char)
    (hpre : ∀ c ∈ pre, ws_char c = true) (hne : tok ≠ []) (hlen : tok.length ≤ 255)
    (hnws : ∀ c ∈ tok, ws_char c = false)
    (hrest : rest = [] ∨ ∃ c cs, rest = c :: cs ∧ ws_char c = true) :
    read_string255 (pre ++ (tok ++ rest)) = some (String.mk tok, rest) := by
  unfold read_string255
  rw [dropWhile_ws_append pre (tok ++ rest) hpre]
  cases tok with
  | nil => exact absurd rfl hne
  | cons t ts =>
    have ht : ws_char t = false := hnws t (List.mem_cons_self t ts)
    simp only [List.cons_append]
    rw [dropWhile_not_ws t (ts ++ rest) ht]
    have hscan : scan_tok 255 ((t :: ts) ++ rest) = (t :: ts, rest) :=
      scan_tok_exact (t :: ts) 255 rest hlen hnws hrest
    simp only [List.cons_append] at hscan
    simp [hscan]

/-- Well-formedness of a head name for the state-file format: nonempty,
at most 255 characters (the `%255s` width), and free of whitespace. -/
def wf_name (s : String) : Prop :=
  s.data ≠ [] ∧ s.data.length ≤ 255 ∧ ∀ c ∈ s.data, ws_char c = false

instance wf_name_decidable (s : String) : Decidable (wf_name s) := by
  unfold wf_name
  infer_instance

theorem head_cons_not_digit (c0 : Char) (h0 : is_digit c0 = false) (xs : List Char) :
    ∀ c cs, c0 :: xs = c :: cs → is_digit c = false := by
  intro c cs h
  injection h with h1 _
  rw [← h1]
  exact h0

theorem parse_record_render_core (nm : List Char) (w hgt r : Int) (pre rest : List Char)
    (hpre : ∀ c ∈ pre, ws_char c = true)
    (hne : nm ≠ []) (hlen : nm.length ≤ 255) (hnws : ∀ c ∈ nm, ws_char c = false) :
    parse_record (pre ++ (nm ++ (' ' :: (int_chars w ++ (' ' :: (int_chars hgt ++
        (' ' :: (int_chars r ++ ('\n' :: rest))))))))) =
      some ({ name := String.mk nm, width := w, height := hgt, refresh := r }, '\n' :: rest) := by
  have h1 : read_string255 (pre ++ (nm ++ (' ' :: (int_chars w ++ (' ' :: (int_chars hgt ++
      (' ' :: (int_chars r ++ ('\n' :: rest))))))))) =
      some (String.mk nm, ' ' :: (int_chars w ++ (' ' :: (int_chars hgt ++
        (' ' :: (int_chars r ++ ('\n' :: rest))))))) :=
    read_string255_render nm pre _ hpre hne hlen hnws (Or.inr ⟨' ', _, rfl, by decide⟩)
  have h2 : read_int (' ' :: (int_chars w ++ (' ' :: (int_chars hgt ++
      (' ' :: (int_chars r ++ ('\n' :: rest))))))) =
      some (w, ' ' :: (int_chars hgt ++ (' ' :: (int_chars r ++ ('\n' :: rest))))) := by
    have := read_int_render w [' '] (' ' :: (int_chars hgt ++ (' ' :: (int_chars r ++
        ('\n' :: rest)))))
      (by intro c hc; simp at hc; rw [hc]; rfl)
      (head_cons_not_digit ' ' (by decide) _)
    simpa using this
  have h3 : read_int (' ' :: (int_chars hgt ++ (' ' :: (int_chars r ++ ('\n' :: rest))))) =
      some (hgt, ' ' :: (int_chars r ++ ('\n' :: rest))) := by
    have := read_int_render hgt [' '] (' ' :: (int_chars r ++ ('\n' :: rest)))
      (by intro c hc; simp at hc; rw [hc]; rfl)
      (head_cons_not_digit ' ' (by decide) _)
    simpa using this
  have h4 : read_int (' ' :: (int_chars r ++ ('\n' :: rest))) = some (r, '\n' :: rest) := by
    have := read_int_render r [' '] ('\n' :: rest)
      (by intro c hc; simp at hc; rw [hc]; rfl)
      (head_cons_not_digit '\n' (by decide) _)
    simpa using this
  simp only [parse_record, h1, h2, h3, h4]

theorem parse_record_render (e : restore_entry) (pre rest : List Char)
    (hpre : ∀ c ∈ pre, ws_char c = true) (hwf : wf_name e.name) :
    parse_record (pre ++ (render_entry e ++ rest)) = some (e, '\n' :: rest) := by
  have hsh : pre ++ (render_entry e ++ rest) =
      pre ++ (e.name.data ++ (' ' :: (int_chars e.width ++ (' ' :: (int_chars e.height ++
        (' ' :: (int_chars e.refresh ++ ('\n' :: rest)))))))) := by
    simp [render_entry]
  rw [hsh]
  exact parse_record_render_core e.name.data e.width e.height e.refresh pre rest hpre
    hwf.1 hwf.2.1 hwf.2.2

theorem dropWhile_len {α : Type} (p : α → Bool) : ∀ l : List α, (l.dropWhile p).length ≤ l.length := by
  intro l
  induction l with
  | nil => exact Nat.le_refl 0
  | cons a l ih =>
    by_cases ha : p a
    · simp only [List.dropWhile_cons, if_pos ha, List.length_cons]
      omega
    · simp [List.dropWhile_cons, ha]

theorem dropWhile_head_false {α : Type} (p : α → Bool) :
    ∀ (l : List α) c rest, l.dropWhile p = c :: rest → p c = false := by
  intro l
  induction l with
  | nil => intro c rest h; exact absurd h (by simp)
  | cons a l ih =>
    intro c rest h
    by_cases ha : p a
    · rw [List.dropWhile_cons, if_pos ha] at h
      exact ih c rest h
    · rw [List.dropWhile_cons, if_neg ha] at h
      injection h with h1 _
      rw [← h1]
      exact Bool.of_not_eq_true ha

theorem read_nat_len : ∀ (cs : List Char) (acc : Nat), (read_nat acc cs).2.length ≤ cs.length := by
  intro cs
  induction cs with
  | nil => intro acc; exact Nat.le_refl 0
  | cons c cs ih =>
    intro acc
    by_cases hc : is_digit c
    · simp only [read_nat, if_pos hc, List.length_cons]
      exact le_trans (ih _) (by omega)
    · simp [read_nat, hc]

theorem scan_tok_len : ∀ (cs : List Char) (n : Nat), (scan_tok n cs).2.length ≤ cs.length := by
  intro cs
  induction cs with
  | nil => intro n; cases n <;> exact Nat.le_refl 0
  | cons c cs ih =>
    intro n
    cases n with
    | zero => exact Nat.le_refl _
    | succ n =>
      by_cases hc : ws_char c
      · simp [scan_tok, hc]
      · simp only [scan_tok, hc, Bool.false_eq_true, if_false, List.length_cons]
        exact le_trans (ih n) (by omega)

theorem scan_tok_succ_len (n : Nat) (c : Char) (cs : List Char) (hc : ws_char c = false) :
    (scan_tok (n + 1) (c :: cs)).2.length ≤ cs.length := by
  simp only [scan_tok, hc, Bool.false_eq_true, if_false]
  exact scan_tok_len cs n

theorem read_int_len (cs : List Char) (i : Int) (r : List Char) (h : read_int cs = some (i, r)) :
    r.length ≤ cs.length := by
  cases hdw : cs.dropWhile ws_char with
  | nil =>
    simp only [read_int, hdw] at h
    exact absurd h (by simp)
  | cons c rest =>
    have h0 : rest.length + 1 ≤ cs.length := by
      have hdl := dropWhile_len ws_char cs
      rw [hdw] at hdl
      simpa using hdl
    simp only [read_int, hdw] at h
    split at h
    · split at h
      · exact absurd h (by simp)
      · split at h
        · simp only [Option.some.injEq, Prod.mk.injEq] at h
          rw [← h.2]
          refine le_trans (read_nat_len _ 0) ?_
          omega
        · exact absurd h (by simp)
    · split at h
      · split at h
        · exact absurd h (by simp)
        · split at h
          · simp only [Option.some.injEq, Prod.mk.injEq] at h
            rw [← h.2]
            refine le_trans (read_nat_len _ 0) ?_
            omega
          · exact absurd h (by simp)
      · split at h
        · simp only [Option.some.injEq, Prod.mk.injEq] at h
          rw [← h.2]
          refine le_trans (read_nat_len _ 0) ?_
          simp only [List.length_cons]
          omega
        · exact absurd h (by simp)

theorem read_string255_len (cs : List Char) (s : String) (r : List Char)
    (h : read_string255 cs = some (s, r)) : r.length < cs.length := by
  cases hdw : cs.dropWhile ws_char with
  | nil =>
    simp only [read_string255, hdw] at h
    exact absurd h (by simp)
  | cons c rest =>
    simp only [read_string255, hdw] at h
    have hc : ws_char c = false := dropWhile_head_false ws_char cs c rest hdw
    have h0 : rest.length + 1 ≤ cs.length := by
      have hdl := dropWhile_len ws_char cs
      rw [hdw] at hdl
      simpa using hdl
    simp only [Option.some.injEq, Prod.mk.injEq] at h
    have hb : (scan_tok 255 (c :: rest)).2.length ≤ rest.length := by
      rw [show (255 : Nat) = 254 + 1 from rfl]
      exact scan_tok_succ_len 254 c rest hc
    rw [← h.2]
    omega

theorem parse_record_len (cs : List Char) (e : restore_entry) (r : List Char)
    (h : parse_record cs = some (e, r)) : r.length < cs.length := by
  cases h1 : read_string255 cs with
  | none =>
    simp only [parse_record, h1] at h
    exact absurd h (by simp)
  | some p =>
    obtain ⟨nm, cs1⟩ := p
    cases h2 : read_int cs1 with
    | none =>
      simp only [parse_record, h1, h2] at h
      exact absurd h (by simp)
    | some q =>
      obtain ⟨w, cs2⟩ := q
      cases h3 : read_int cs2 with
      | none =>
        simp only [parse_record, h1, h2, h3] at h
        exact absurd h (by simp)
      | some q3 =>
        obtain ⟨hg, cs3⟩ := q3
        cases h4 : read_int cs3 with
        | none =>
          simp only [parse_record, h1, h2, h3, h4] at h
          exact absurd h (by simp)
        | some q4 =>
          obtain ⟨rr, cs4⟩ := q4
          simp only [parse_record, h1, h2, h3, h4, Option.some.injEq, Prod.mk.injEq] at h
          rw [← h.2]
          have l1 := read_string255_len cs nm cs1 h1
          have l2 := read_int_len cs1 w cs2 h2
          have l3 := read_int_len cs2 hg cs3 h3
          have l4 := read_int_len cs3 rr cs4 h4
          omega

theorem parse_records_fuel_congr : ∀ (f g : Nat) (cs : List Char), cs.length < f →
    cs.length < g → parse_records_fuel f cs = parse_records_fuel g cs := by
  intro f
  induction f with
  | zero => intro g cs hf; omega
  | succ f ih =>
    intro g cs hf hg
    cases g with
    | zero => omega
    | succ g =>
      simp only [parse_records_fuel]
      cases hp : parse_record cs with
      | none => rfl
      | some p =>
        obtain ⟨e, r⟩ := p
        have hr := parse_record_len cs e r hp
        show e :: parse_records_fuel f r = e :: parse_records_fuel g r
        rw [ih g r (by omega) (by omega)]

theorem parse_records_eq (cs : List Char) :
    parse_records cs =
      match parse_record cs with
      | none => []
      | some (e, r) => e :: parse_records r := by
  cases hp : parse_record cs with
  | none =>
    show parse_records_fuel (cs.length + 1) cs = []
    simp only [parse_records_fuel, hp]
  | some p =>
    obtain ⟨e, r⟩ := p
    have hr := parse_record_len cs e r hp
    show parse_records_fuel (cs.length + 1) cs = e :: parse_records r
    have hstep : parse_records_fuel (cs.length + 1) cs = e :: parse_records_fuel cs.length r := by
      simp only [parse_records_fuel, hp]
    rw [hstep]
    show _ = e :: parse_records_fuel (r.length + 1) r
    rw [parse_records_fuel_congr cs.length (r.length + 1) r (by omega) (by omega)]

theorem read_string255_ws (pre cs : List Char) (hpre : ∀ c ∈ pre, ws_char c = true) :
    read_string255 (pre ++ cs) = read_string255 cs := by
  unfold read_string255
  rw [dropWhile_ws_append pre cs hpre]

theorem parse_record_ws (pre cs : List Char) (hpre : ∀ c ∈ pre, ws_char c = true) :
    parse_record (pre ++ cs) = parse_record cs := by
  unfold parse_record
  rw [read_string255_ws pre cs hpre]

theorem parse_records_ws (pre cs : List Char) (hpre : ∀ c ∈ pre, ws_char c = true) :
    parse_records (pre ++ cs) = parse_records cs := by
  rw [parse_records_eq, parse_records_eq cs, parse_record_ws pre cs hpre]

theorem parse_records_render (es : List restore_entry) : ∀ pre t,
    (∀ c ∈ pre, ws_char c = true) → (∀ e ∈ es, wf_name e.name) →
    parse_records (pre ++ ((es.map render_entry).flatten ++ t)) = es ++ parse_records t := by
  induction es with
  | nil =>
    intro pre t hpre _
    simp only [List.map_nil, List.flatten_nil, List.nil_append]
    exact parse_records_ws pre t hpre
  | cons e es ih =>
    intro pre t hpre hwf
    have hsh : pre ++ (((e :: es).map render_entry).flatten ++ t) =
        pre ++ (render_entry e ++ ((es.map render_entry).flatten ++ t)) := by
      simp [List.append_assoc]
    rw [hsh]
    have h1 : parse_record (pre ++ (render_entry e ++ ((es.map render_entry).flatten ++ t))) =
        some (e, '\n' :: ((es.map render_entry).flatten ++ t)) :=
      parse_record_render e pre ((es.map render_entry).flatten ++ t) hpre
        (hwf e (List.mem_cons_self e es))
    rw [parse_records_eq, h1]
    show e :: parse_records ('\n' :: ((es.map render_entry).flatten ++ t)) =
      e :: es ++ parse_records t
    rw [show ('\n' :: ((es.map render_entry).flatten ++ t)) =
        ['\n'] ++ ((es.map render_entry).flatten ++ t) from rfl]
    rw [ih ['\n'] t (by intro c hc; simp at hc; rw [hc]; rfl)
      (fun x hx => hwf x (List.mem_cons_of_mem e hx))]
    rfl

/-- C4, counterexample: a state file with two entries named X.  Because
`load_state` inserts each parsed entry at the front of the list,
`find_restore_entry` returns the entry that appeared *last* in the file
(X 4 5 6), not the first one (X 1 2 3) the claim demands. -/
theorem claim_C4_counterexample :
    find_restore_entry (load_state ("X 1 2 3\nX 4 5 6\n")) ("X")
      = some { name := "X", width := 4, height := 5, refresh := 6 } ∧
    (parse_records ("X 1 2 3\nX 4 5 6\n").data).head?
      = some { name := "X", width := 1, height := 2, refresh := 3 } ∧
    ({ name := "X", width := 4, height := 5, refresh := 6 } : restore_entry)
      ≠ { name := "X", width := 1, height := 2, refresh := 3 } := by
  decide

/-- C4, amended: looking a name up in the loaded entry set returns the
entry for that name that appeared *last* in file order (the parsed record
list is reversed by the front-insertion of `load_state`, and
`find_restore_entry` takes the first match of the reversed list). -/
theorem claim_C4 (content : String) (n : String) :
    find_restore_entry (load_state content) n =
      ((parse_records content.data).filter (fun e => e.name == n)).getLast? := by
  unfold find_restore_entry load_state
  exact (last_filter_eq_reverse_find? (fun e => e.name == n) (parse_records content.data)).symm

theorem entry_of_head_name (h : head_info) (e : restore_entry) (he : entry_of_head h = some e) :
    h.name = some e.name := by
  unfold entry_of_head at he
  cases hn : h.name with
  | none => rw [hn] at he; exact absurd he (by simp)
  | some n =>
    cases hd : deref_current h with
    | none => rw [hn, hd] at he; exact absurd he (by simp)
    | some m =>
      rw [hn, hd] at he
      simp only [Option.some.injEq] at he
      rw [← he]

/-- C8, counterexample: a head whose name is the *empty* string (which is
whitespace-free and at most 255 characters long) and which has a resolved
current mode.  `save_state` emits the line for it, but the leading empty
name makes `fscanf` consume the width as the name, so deserialization
yields no entry at all instead of the one entry per head the claim
demands. -/
theorem claim_C8_counterexample :
    load_state (save_state
        [{ obj := 1, name := some (""), enabled := true, current := some 10,
           modes := [{ obj := 10, width := 1920, height := 1080, refresh := 60,
                       preferred := false }] }]) = [] ∧
    entry_of_head
        { obj := 1, name := some (""), enabled := true, current := some 10,
          modes := [{ obj := 10, width := 1920, height := 1080, refresh := 60,
                      preferred := false }] }
      = some { name := "", width := 1920, height := 1080, refresh := 60 } ∧
    (∀ c ∈ ("" : String).data, ws_char c = false) ∧ ("" : String).data.length ≤ 255 := by
  decide

/-- C8, amended: for every head set whose named heads have *nonempty*,
whitespace-free names of at most 255 characters, serializing the heads
that have both a name and a resolved current mode and deserializing the
result yields exactly one entry (name, width, height, refresh) per such
head — in file order as parsed, reversed by `load_state`'s
front-insertion. -/
theorem claim_C8 (heads : List head_info)
    (hwf : ∀ h ∈ heads, ∀ nm, h.name = some nm → wf_name nm) :
    parse_records (save_state_chars heads) = heads.filterMap entry_of_head ∧
    load_state (save_state heads) = (heads.filterMap entry_of_head).reverse := by
  have hwf' : ∀ e ∈ heads.filterMap entry_of_head, wf_name e.name := by
    intro e he
    rw [List.mem_filterMap] at he
    obtain ⟨h, hh, heq⟩ := he
    exact hwf h hh e.name (entry_of_head_name h e heq)
  have h1 : parse_records (save_state_chars heads) = heads.filterMap entry_of_head := by
    have hmain := parse_records_render (heads.filterMap entry_of_head) [] [] (by simp) hwf'
    rw [show parse_records ([] : List Char) = [] from rfl] at hmain
    simp only [List.nil_append, List.append_nil] at hmain
    exact hmain
  refine ⟨h1, ?_⟩
  unfold load_state save_state
  rw [show (String.mk (save_state_chars heads)).data = save_state_chars heads from rfl, h1]

/-- C8, witness: the spec's own example — one head eDP-1 whose current
mode is 1920×1080 at 60 — round-trips to exactly one restore entry. -/
theorem claim_C8_witness :
    load_state (save_state
        [{ obj := 1, name := some ("eDP-1"), enabled := true, current := some 10,
           modes := [{ obj := 10, width := 1920, height := 1080, refresh := 60,
                       preferred := false }] }])
      = [{ name := "eDP-1", width := 1920, height := 1080, refresh := 60 }] := by
  refine ((claim_C8 _ ?_).2).trans (by decide)
  intro h hh nm hn
  simp only [List.mem_singleton] at hh
  subst hh
  simp only [Option.some.injEq] at hn
  rw [← hn]
  decide

/-- C9: a state file made of well-formed records followed by a record that
fails to parse (in the spec's single-space newline-terminated format)
deserializes to exactly the well-formed prefix, stopping silently at the
malformed record; `load_state` returns those entries (in reversed order
due to front-insertion). -/
theorem claim_C9 (es : List restore_entry) (t : List Char)
    (hwf : ∀ e ∈ es, wf_name e.name) (hbad : parse_record t = none) :
    parse_records ((es.map render_entry).flatten ++ t) = es ∧
    load_state (String.mk ((es.map render_entry).flatten ++ t)) = es.reverse := by
  have hmain := parse_records_render es [] t (by simp) hwf
  rw [List.nil_append] at hmain
  have ht : parse_records t = [] := by
    rw [parse_records_eq, hbad]
  rw [ht, List.append_nil] at hmain
  refine ⟨hmain, ?_⟩
  unfold load_state
  rw [show (String.mk ((es.map render_entry).flatten ++ t)).data =
      (es.map render_entry).flatten ++ t from rfl, hmain]

/-- C9, witness: one good record for eDP-1 followed by the spec's example
trailing incomplete record `HDMI-1 1920 1080` (missing the fourth field)
parses to exactly the one good entry. -/
theorem claim_C9_witness :
    parse_records
        ((([{ name := "eDP-1", width := 1920, height := 1080, refresh := 60 }] :
            List restore_entry).map render_entry).flatten ++ ("HDMI-1 1920 1080").data)
      = [{ name := "eDP-1", width := 1920, height := 1080, refresh := 60 }] :=
  (claim_C9 _ _
    (by intro e he; simp only [List.mem_singleton] at he; rw [he]; decide)
    (by decide)).1
